import Mathlib

/-!
Verification of the tweet-filtering pipeline (`filter.py`).

The script reads a batch of tweets (JSON dictionaries), merges previously
computed classifications from a local output file and a remote gist into a
cache, backfills the batch from that cache, deduplicates by a derived key,
partitions into already-classified and needs-classification, classifies the
latter through a remote service with a bounded worker pool, sorts by
timestamp descending and persists.

The embedding below models tweets as records of optional fields.  An outer
`none` models an absent dictionary key.  For the five classification fields
an outer `Option` layer models key presence (the script tests `'_skip' in t`)
and the inner layer the stored value, which the script can set to `None`.
-/

/-- One collected tweet, as read from the input JSON.  `none` models an
absent key (for the plain fields, JSON `null` and absence are conflated,
which is how the script reads them via `dict.get` with falsy coalescing). -/
structure Tweet where
  handle : Option String := none
  name : Option String := none
  text : Option String := none
  links : List String := []
  ts : Option Int := none
  skip : Option (Option Bool) := none
  skip_reason : Option (Option String) := none
  quality : Option (Option String) := none
  topic : Option (Option String) := none
  summary : Option (Option String) := none
deriving Repr, DecidableEq

/-- Derived item key: `(t.get('handle') or '') + (t.get('text') or '')[:50]`.
Python slices by code point, so the text contributes its first 50 characters. -/
def keyOf (t : Tweet) : String :=
  String.mk ((t.handle.getD "").data ++ ((t.text.getD "").data.take 50))

/-- Cached classification record: the values the script reads with
`t.get('_skip')`, `t.get('_skip_reason')`, ... from a previously classified
tweet (`none` = key absent or stored `None`). -/
structure ClsRecord where
  skip : Option Bool := none
  skip_reason : Option String := none
  quality : Option String := none
  topic : Option String := none
  summary : Option String := none
deriving Repr, DecidableEq

/-- The five-field record extracted from a tweet inside `add_classifications`. -/
def recordOf (t : Tweet) : ClsRecord :=
  { skip := t.skip.join
    skip_reason := t.skip_reason.join
    quality := t.quality.join
    topic := t.topic.join
    summary := t.summary.join }

/-- The `existing_classifications` accumulator, a key-to-record map.  The
script uses a Python dict; it is modelled as an association list in which
each key is inserted at most once, looked up with `List.lookup`. -/
abbrev Cache := List (String × ClsRecord)

/-- Body of `add_classifications` (filter.py lines 111-126): for each tweet
carrying a `_skip` key, insert its record under its key unless the key is
already present. -/
def add_classifications (acc : Cache) (ts : List Tweet) : Cache :=
  ts.foldl
    (fun m t =>
      if t.skip.isSome then
        if (m.lookup (keyOf t)).isSome then m
        else (keyOf t, recordOf t) :: m
      else m)
    acc

/-- The cache-building phase of `main` (lines 128-160): fold
`add_classifications` over the sources in priority order.  A source that is
missing or fails to load contributes nothing (`none`); the exception handlers
in the script swallow the failure and continue. -/
def buildCache (sources : List (Option (List Tweet))) : Cache :=
  sources.foldl
    (fun m s =>
      match s with
      | some ts => add_classifications m ts
      | none => m)
    []

/-- Effect of `t.update(existing_classifications[key])` (line 166): the five
classification keys become present on the tweet with the cached values. -/
def applyRecord (r : ClsRecord) (t : Tweet) : Tweet :=
  { t with
    skip := some r.skip
    skip_reason := some r.skip_reason
    quality := some r.quality
    topic := some r.topic
    summary := some r.summary }

/-- One step of the backfill loop (lines 163-166). -/
def backfillOne (cache : Cache) (t : Tweet) : Tweet :=
  match cache.lookup (keyOf t) with
  | some r => if t.skip.isSome then t else applyRecord r t
  | none => t

/-- The backfill loop: apply cached classifications to every batch item that
lacks its own. -/
def backfill (cache : Cache) (tweets : List Tweet) : List Tweet :=
  tweets.map (backfillOne cache)

/-- Deduplication loop (lines 169-175) with its `seen` set of keys. -/
def dedupAux (seen : List String) : List Tweet → List Tweet
  | [] => []
  | t :: rest =>
    if keyOf t ∈ seen then dedupAux seen rest
    else t :: dedupAux (keyOf t :: seen) rest

/-- Deduplicate by key, keeping first occurrences. -/
def dedup (tweets : List Tweet) : List Tweet := dedupAux [] tweets

/-- Partition, classified side (line 182): tweets whose `_skip` key is present. -/
def alreadyClassified (l : List Tweet) : List Tweet :=
  l.filter (fun t => t.skip.isSome)

/-- Partition, unclassified side (line 183): tweets lacking the `_skip` key. -/
def needsClassification (l : List Tweet) : List Tweet :=
  l.filter (fun t => !t.skip.isSome)

/-- A parsed JSON reply from the classification service, as consumed by
`process_tweet` via `classification.get(...)` (`none` = key absent). -/
structure Classification where
  skip : Option Bool := none
  skip_reason : Option String := none
  quality : Option String := none
  topic : Option String := none
  summary : Option String := none
deriving Repr, DecidableEq

/-- The safe default returned by `classify_tweet` on failure (lines 65, 69):
`{"skip": False, "quality": "medium", "topic": "unknown", "summary": ""}`
(no `skip_reason` key). -/
def defaultClassification : Classification :=
  { skip := some false
    quality := some "medium"
    topic := some "unknown"
    summary := some "" }

/-- Body of `process_tweet` (lines 79-89): write the classification onto the
tweet.  All five `_`-prefixed keys become present; `_skip_reason` stores
`None` unless the skip flag is set. -/
def process_tweet (cls : Classification) (t : Tweet) : Tweet :=
  let skip := cls.skip.getD false
  { t with
    skip := some (some skip)
    skip_reason := some (if skip then some (cls.skip_reason.getD "") else none)
    quality := some (some (cls.quality.getD "medium"))
    topic := some (some (cls.topic.getD ""))
    summary := some (some (cls.summary.getD "")) }

/-- The left-brace character, written by code point. -/
def lbrace : Char := Char.ofNat 123

/-- The right-brace character, written by code point. -/
def rbrace : Char := Char.ofNat 125

/-- The substring handed to `json.loads` (lines 52-57).  The regex
`re.search` of a brace, then `[\s\S]*` greedily, then a brace, matches from
the first left brace through the last right brace of the text whenever some
right brace occurs after the first left brace; otherwise there is no match
and the whole text is parsed. -/
def extractJson (s : String) : String :=
  let fromBrace := s.data.dropWhile (fun c => c != lbrace)
  let upToClose := (fromBrace.reverse.dropWhile (fun c => c != rbrace)).reverse
  if 2 ≤ upToClose.length then String.mk upToClose else s

/-- Python `str.strip()`: remove leading and trailing whitespace. -/
def pyStrip (s : String) : String :=
  String.mk (((s.data.dropWhile Char.isWhitespace).reverse.dropWhile Char.isWhitespace).reverse)

/-- Outcome of one attempt inside the retry loop of `classify_tweet`: the
service call raised `RateLimitError`, raised some other exception, or
returned a response whose text is `text`. -/
inductive Attempt where
  | rateLimit
  | exn
  | success (text : String)
deriving Repr, DecidableEq

/-- The retry loop of `classify_tweet` (lines 42-69), from a given attempt
index.  `parse` stands for `json.loads`, returning `none` when it would
raise (the surrounding `except Exception` turns that into the default
record).  Falling off the loop returns Python `None`, modelled as `none`. -/
def classifyFrom (parse : String → Option Classification) (outcomes : Nat → Attempt)
    (maxRetries : Nat) (attempt : Nat) : Option Classification :=
  if _h : attempt < maxRetries then
    match outcomes attempt with
    | .success text => some ((parse (extractJson (pyStrip text))).getD defaultClassification)
    | .exn => some defaultClassification
    | .rateLimit =>
      if attempt = maxRetries - 1 then some defaultClassification
      else classifyFrom parse outcomes maxRetries (attempt + 1)
  else none
termination_by maxRetries - attempt

/-- `classify_tweet` with its retry loop started at attempt 0. -/
def classify_tweet (parse : String → Option Classification) (outcomes : Nat → Attempt)
    (maxRetries : Nat := 3) : Option Classification :=
  classifyFrom parse outcomes maxRetries 0

/-- Sort key: `t.get('ts', 0)`. -/
def tsKey (t : Tweet) : Int := t.ts.getD 0

/-- The final sort (line 224): Python `list.sort` is stable, and
`reverse=True` reverses each comparison while keeping stability, i.e. a
stable sort by timestamp descending. -/
def sortOutput (l : List Tweet) : List Tweet :=
  l.mergeSort (fun a b => decide (tsKey b ≤ tsKey a))

/-- The `new_results` array fill (lines 202-211): start from `[None] * n`
and, in completion order, write each finished item into the slot holding its
pre-assigned index. -/
def runPool (f : Nat → Tweet) (order : List Nat) (n : Nat) : List (Option Tweet) :=
  order.foldl (fun acc i => acc.set i (some (f i))) (List.replicate n none)

/-- The deduplicated, backfilled batch: state of `tweets` after line 179. -/
def pipelineUniq (cache : Cache) (tweets : List Tweet) : List Tweet :=
  dedup (backfill cache tweets)

/-- The `new_results` list after the pool completes, with `cls i` the parsed
service reply for the i-th needs-classification item and `order` the
completion order of the futures. -/
def newlyClassified (cache : Cache) (tweets : List Tweet)
    (cls : Nat → Classification) (order : List Nat) : List Tweet :=
  (runPool
      (fun i => process_tweet (cls i)
        (((needsClassification (pipelineUniq cache tweets))[i]?).getD {}))
      order (needsClassification (pipelineUniq cache tweets)).length).reduceOption

/-- The list `main` persists to `filtered.json`: on the short-circuit path
(nothing needs classification, lines 187-194) the deduplicated batch as-is;
otherwise newly classified items concatenated with already-classified ones,
sorted by timestamp descending (lines 220-228). -/
def mainOutput (cache : Cache) (tweets : List Tweet)
    (cls : Nat → Classification) (order : List Nat) : List Tweet :=
  if (needsClassification (pipelineUniq cache tweets)).isEmpty then pipelineUniq cache tweets
  else
    sortOutput (newlyClassified cache tweets cls order
      ++ alreadyClassified (pipelineUniq cache tweets))

/-! Helper lemmas about the key function, backfill and deduplication. -/

theorem keyOf_applyRecord (r : ClsRecord) (t : Tweet) : keyOf (applyRecord r t) = keyOf t := rfl

theorem keyOf_backfillOne (cache : Cache) (t : Tweet) :
    keyOf (backfillOne cache t) = keyOf t := by
  unfold backfillOne
  cases cache.lookup (keyOf t) with
  | none => rfl
  | some r =>
    by_cases h : t.skip.isSome <;> simp [h, keyOf_applyRecord]

theorem skip_isSome_backfillOne (cache : Cache) (t : Tweet)
    (h : (cache.lookup (keyOf t)).isSome) : (backfillOne cache t).skip.isSome := by
  unfold backfillOne
  cases hl : cache.lookup (keyOf t) with
  | none => rw [hl] at h; simp at h
  | some r =>
    by_cases hs : t.skip.isSome
    · simp [hs]
    · simp [hs, applyRecord]

theorem dedupAux_sublist (l : List Tweet) : ∀ seen, List.Sublist (dedupAux seen l) l := by
  induction l with
  | nil => intro seen; simp [dedupAux]
  | cons t rest ih =>
    intro seen
    unfold dedupAux
    by_cases h : keyOf t ∈ seen
    · simp only [if_pos h]
      exact (ih seen).trans (List.sublist_cons_self t rest)
    · simp only [if_neg h]
      exact (ih (keyOf t :: seen)).cons₂ t

theorem dedup_sublist (l : List Tweet) : List.Sublist (dedup l) l := dedupAux_sublist l []

theorem dedupAux_key_not_seen (l : List Tweet) :
    ∀ seen, ∀ u ∈ dedupAux seen l, keyOf u ∉ seen := by
  induction l with
  | nil => intro seen u hu; simp [dedupAux] at hu
  | cons t rest ih =>
    intro seen u hu
    unfold dedupAux at hu
    by_cases h : keyOf t ∈ seen
    · rw [if_pos h] at hu
      exact ih seen u hu
    · rw [if_neg h] at hu
      rcases List.mem_cons.mp hu with rfl | hu
      · exact h
      · have := ih (keyOf t :: seen) u hu
        exact fun hc => this (List.mem_cons_of_mem _ hc)

theorem dedupAux_keys_nodup (l : List Tweet) :
    ∀ seen, ((dedupAux seen l).map keyOf).Nodup := by
  induction l with
  | nil => intro seen; simp [dedupAux]
  | cons t rest ih =>
    intro seen
    unfold dedupAux
    by_cases h : keyOf t ∈ seen
    · simpa [h] using ih seen
    · rw [if_neg h]
      simp only [List.map_cons, List.nodup_cons]
      constructor
      · intro hc
        rcases List.mem_map.mp hc with ⟨u, hu, hku⟩
        exact dedupAux_key_not_seen rest (keyOf t :: seen) u hu (hku ▸ List.mem_cons_self _ _)
      · exact ih (keyOf t :: seen)

theorem dedupAux_first_occ (l : List Tweet) :
    ∀ seen t, t ∈ l → keyOf t ∉ seen →
      ∃ u, l.find? (fun v => keyOf v == keyOf t) = some u ∧ u ∈ dedupAux seen l := by
  induction l with
  | nil => intro seen t ht; simp at ht
  | cons v rest ih =>
    intro seen t ht hseen
    by_cases hk : keyOf v = keyOf t
    · refine ⟨v, ?_, ?_⟩
      · simp [List.find?_cons, hk]
      · unfold dedupAux
        rw [if_neg (hk ▸ hseen)]
        exact List.mem_cons_self _ _
    · have ht' : t ∈ rest := by
        rcases List.mem_cons.mp ht with rfl | h
        · exact absurd rfl hk
        · exact h
      unfold dedupAux
      by_cases hv : keyOf v ∈ seen
      · rw [if_pos hv]
        rcases ih seen t ht' hseen with ⟨u, hfind, hmem⟩
        refine ⟨u, ?_, hmem⟩
        simpa [List.find?_cons, hk] using hfind
      · rw [if_neg hv]
        have hseen' : keyOf t ∉ keyOf v :: seen := by
          intro hc
          rcases List.mem_cons.mp hc with h | h
          · exact hk h.symm
          · exact hseen h
        rcases ih (keyOf v :: seen) t ht' hseen' with ⟨u, hfind, hmem⟩
        refine ⟨u, ?_, List.mem_cons_of_mem _ hmem⟩
        simpa [List.find?_cons, hk] using hfind

/-! Sample data used by the witnesses below. -/

/-- Sample: an unclassified tweet. -/
def tw1 : Tweet := { handle := some "h", text := some "abc", ts := some 5 }

/-- Sample: a classified tweet with the same key as `tw1` (same handle and
text prefix) but a different timestamp. -/
def tw2 : Tweet :=
  { handle := some "h", text := some "abc", ts := some 1,
    skip := some (some true), skip_reason := some (some "bait"),
    quality := some (some "high"), topic := some (some "ai"),
    summary := some (some "s") }

/-- Sample: an unclassified tweet with a distinct key. -/
def tw3 : Tweet := { handle := some "g", text := some "xyz", ts := some 9 }

/-- Sample cache holding the classification of `tw2` under its key. -/
def cache1 : Cache := buildCache [some [tw2]]

/-- C1: Backfill runs before deduplication: every item of the backfilled
batch whose key has a cache match carries the cached classification, and in
particular the surviving first occurrence after deduplication is classified
whenever any cache match existed for its key. -/
theorem backfill_then_dedup_classified (cache : Cache) (tweets : List Tweet) (t : Tweet) :
    (t ∈ backfill cache tweets → (cache.lookup (keyOf t)).isSome → t.skip.isSome)
    ∧ (t ∈ dedup (backfill cache tweets) → (cache.lookup (keyOf t)).isSome → t.skip.isSome) := by
  have h1 : t ∈ backfill cache tweets → (cache.lookup (keyOf t)).isSome → t.skip.isSome := by
    intro hmem hcache
    rcases List.mem_map.mp hmem with ⟨t0, _, rfl⟩
    rw [keyOf_backfillOne] at hcache
    exact skip_isSome_backfillOne cache t0 hcache
  exact ⟨h1, fun hmem => h1 ((dedup_sublist _).subset hmem)⟩

theorem backfill_then_dedup_classified_witness :
    (backfillOne cache1 tw1) ∈ dedup (backfill cache1 [tw1, tw1]) ∧
      (cache1.lookup (keyOf (backfillOne cache1 tw1))).isSome ∧
      (backfillOne cache1 tw1).skip.isSome :=
  ⟨by decide, by decide,
    (backfill_then_dedup_classified cache1 [tw1, tw1] (backfillOne cache1 tw1)).2
      (by decide) (by decide)⟩

/-- C2: Deduplication keeps exactly the first occurrence per key in input
order: the surviving keys are pairwise distinct, the survivors form a
subsequence of the input (so relative order is preserved), and for every
input item the first occurrence of its key survives. -/
theorem dedup_first_occurrence (tweets : List Tweet) :
    ((dedup tweets).map keyOf).Nodup
    ∧ List.Sublist (dedup tweets) tweets
    ∧ ∀ t ∈ tweets, ∃ u,
        tweets.find? (fun v => keyOf v == keyOf t) = some u ∧ u ∈ dedup tweets :=
  ⟨dedupAux_keys_nodup tweets [], dedup_sublist tweets,
    fun t ht => dedupAux_first_occ tweets [] t ht (by simp)⟩

theorem dedup_first_occurrence_witness :
    [tw1, tw2, tw3].find? (fun v => keyOf v == keyOf tw2) = some tw1
      ∧ tw1 ∈ dedup [tw1, tw2, tw3] := by
  obtain ⟨u, hu, hmem⟩ := (dedup_first_occurrence [tw1, tw2, tw3]).2.2 tw2 (by decide)
  have hval : [tw1, tw2, tw3].find? (fun v => keyOf v == keyOf tw2) = some tw1 := by decide
  rw [hval] at hu
  have heq : u = tw1 := (Option.some_inj.mp hu).symm
  subst heq
  exact ⟨hval, hmem⟩

/-! Cache merge: first-source-wins characterization. -/

theorem lookup_add_classifications (ts : List Tweet) :
    ∀ (m : Cache) (k : String),
      (add_classifications m ts).lookup k =
        (m.lookup k).or
          ((ts.find? (fun t => t.skip.isSome && (keyOf t == k))).map recordOf) := by
  induction ts with
  | nil => intro m k; simp [add_classifications]
  | cons t ts ih =>
    intro m k
    have hstep : add_classifications m (t :: ts) =
        add_classifications
          (if t.skip.isSome then
            if (m.lookup (keyOf t)).isSome then m else (keyOf t, recordOf t) :: m
          else m) ts := by
      simp [add_classifications]
    rw [hstep]
    by_cases hs : t.skip.isSome
    · by_cases hm : (m.lookup (keyOf t)).isSome
      · rw [if_pos hs, if_pos hm, ih]
        by_cases hk : keyOf t = k
        · rcases Option.isSome_iff_exists.mp (hk ▸ hm) with ⟨r, hr⟩
          simp [List.find?_cons, hs, hk, hr]
        · simp [List.find?_cons, hs, hk]
      · rw [if_pos hs, if_neg hm, ih]
        by_cases hk : keyOf t = k
        · rw [Option.not_isSome_iff_eq_none] at hm
          simp [List.lookup_cons, List.find?_cons, hs, hk, hk ▸ hm]
        · have : (k == keyOf t) = false := by
            simp [BEq.comm]
            exact fun hc => hk hc.symm
          simp [List.lookup_cons, List.find?_cons, hs, hk, this]
    · rw [if_neg hs, ih]
      simp only [Bool.not_eq_true] at hs
      simp [List.find?_cons, hs]

theorem lookup_buildCache_foldl (sources : List (Option (List Tweet))) :
    ∀ (m : Cache) (k : String),
      (sources.foldl
        (fun m s =>
          match s with
          | some ts => add_classifications m ts
          | none => m) m).lookup k =
      (m.lookup k).or
        ((((sources.filterMap id).flatten).find?
            (fun t => t.skip.isSome && (keyOf t == k))).map recordOf) := by
  induction sources with
  | nil => intro m k; simp
  | cons s rest ih =>
    intro m k
    cases s with
    | none => simpa using ih m k
    | some ts =>
      simp only [List.foldl_cons, List.filterMap_cons, id]
      rw [ih, lookup_add_classifications]
      cases hmk : m.lookup k <;>
        cases hts : ts.find? (fun t => t.skip.isSome && (keyOf t == k)) <;>
          simp [List.flatten_cons, List.find?_append, hts]

/-- C3: The merged cache is first-source-wins: the record stored under any
key is exactly the one of the first classified (skip-key-present) item with
that key, scanning the successfully loaded sources in priority order; items
without the skip key contribute nothing, and a failing or missing source
(`none`) is skipped without affecting the rest of the merge. -/
theorem buildCache_first_source_wins (sources : List (Option (List Tweet))) (k : String) :
    (buildCache sources).lookup k =
      (((sources.filterMap id).flatten).find?
          (fun t => t.skip.isSome && (keyOf t == k))).map recordOf := by
  have h := lookup_buildCache_foldl sources [] k
  simpa [buildCache] using h

/-! Classifier client: retry exhaustion and error fallback. -/

theorem classifyFrom_step (parse : String → Option Classification) (outcomes : Nat → Attempt)
    (maxRetries attempt : Nat) (h : attempt < maxRetries) :
    classifyFrom parse outcomes maxRetries attempt =
      match outcomes attempt with
      | .success text => some ((parse (extractJson (pyStrip text))).getD defaultClassification)
      | .exn => some defaultClassification
      | .rateLimit =>
        if attempt = maxRetries - 1 then some defaultClassification
        else classifyFrom parse outcomes maxRetries (attempt + 1) := by
  rw [classifyFrom]
  rw [dif_pos h]

/-- C4: When the classifier client exhausts its 3 rate-limit retry attempts,
or hits any other error at some attempt (with only rate limits before it, and
without retrying after it), or gets a response whose extracted JSON fails to
parse, `classify_tweet` returns exactly the safe default record
`{skip: false, quality: "medium", topic: "unknown", summary: ""}` instead of
propagating the error. -/
theorem classify_tweet_safe_default (parse : String → Option Classification)
    (outcomes : Nat → Attempt) :
    ((∀ i, i < 3 → outcomes i = .rateLimit) →
        classify_tweet parse outcomes 3 = some defaultClassification)
    ∧ (∀ i, i < 3 → (∀ j, j < i → outcomes j = .rateLimit) → outcomes i = .exn →
        classify_tweet parse outcomes 3 = some defaultClassification)
    ∧ (∀ i s, i < 3 → (∀ j, j < i → outcomes j = .rateLimit) → outcomes i = .success s →
        parse (extractJson (pyStrip s)) = none →
        classify_tweet parse outcomes 3 = some defaultClassification) := by
  have step0 := classifyFrom_step parse outcomes 3 0 (by omega)
  have step1 := classifyFrom_step parse outcomes 3 1 (by omega)
  have step2 := classifyFrom_step parse outcomes 3 2 (by omega)
  refine ⟨?_, ?_, ?_⟩
  · intro h
    simp [classify_tweet, step0, step1, step2, h 0 (by omega), h 1 (by omega), h 2 (by omega)]
  · intro i hi hbefore hexn
    interval_cases i
    · simp [classify_tweet, step0, hexn]
    · simp [classify_tweet, step0, step1, hbefore 0 (by omega), hexn]
    · simp [classify_tweet, step0, step1, step2, hbefore 0 (by omega), hbefore 1 (by omega),
        hexn]
  · intro i s hi hbefore hsucc hparse
    interval_cases i
    · simp [classify_tweet, step0, hsucc, hparse]
    · simp [classify_tweet, step0, step1, hbefore 0 (by omega), hsucc, hparse]
    · simp [classify_tweet, step0, step1, step2, hbefore 0 (by omega), hbefore 1 (by omega),
        hsucc, hparse]

theorem classify_tweet_safe_default_witness :
    classify_tweet (fun _ => none) (fun _ => Attempt.rateLimit) 3 =
      some defaultClassification :=
  (classify_tweet_safe_default (fun _ => none) (fun _ => Attempt.rateLimit)).1
    (fun _ _ => rfl)

/-! Partition: already-classified items are never dispatched. -/

/-- C6: The items dispatched to the classifier are exactly the deduplicated
items lacking the skip field: every item in the needs-classification list
has no `_skip` key, no deduplicated item carrying the key is in that list,
and every deduplicated item without the key is in it. -/
theorem dispatch_only_unclassified (cache : Cache) (tweets : List Tweet) :
    (∀ t ∈ needsClassification (pipelineUniq cache tweets), t.skip = none)
    ∧ (∀ t ∈ pipelineUniq cache tweets, t.skip.isSome →
        t ∉ needsClassification (pipelineUniq cache tweets))
    ∧ (∀ t ∈ pipelineUniq cache tweets, t.skip = none →
        t ∈ needsClassification (pipelineUniq cache tweets)) := by
  refine ⟨?_, ?_, ?_⟩
  · intro t ht
    have := List.of_mem_filter ht
    simpa [Option.not_isSome_iff_eq_none] using this
  · intro t _ hs hmem
    have := List.of_mem_filter hmem
    simp [hs] at this
  · intro t ht hs
    exact List.mem_filter.mpr ⟨ht, by simp [hs]⟩

theorem dispatch_only_unclassified_witness :
    tw3 ∈ needsClassification (pipelineUniq cache1 [tw1, tw3]) ∧
      tw3.skip = none ∧
      tw3 ∈ pipelineUniq cache1 [tw1, tw3] :=
  ⟨(dispatch_only_unclassified cache1 [tw1, tw3]).2.2 tw3 (by decide) (by decide),
    by decide, by decide⟩

/-! Skip reason handling in `process_tweet`. -/

/-- C10: For every item classified in the current run, the stored skip
reason is `None` whenever the skip flag is false, even if the service reply
included a non-empty `skip_reason`; a skip-reason string is retained only
when the skip flag is true. -/
theorem skip_reason_only_when_skipped (cls : Classification) (t : Tweet) :
    (cls.skip.getD false = false → (process_tweet cls t).skip_reason = some none)
    ∧ (cls.skip.getD false = true →
        (process_tweet cls t).skip_reason = some (some (cls.skip_reason.getD ""))) := by
  constructor <;> intro h <;> simp [process_tweet, h]

theorem skip_reason_only_when_skipped_witness :
    ({ skip := some false, skip_reason := some "engagement bait" } : Classification).skip.getD
        false = false ∧
      (process_tweet { skip := some false, skip_reason := some "engagement bait" }
          tw1).skip_reason = some none :=
  ⟨rfl,
    (skip_reason_only_when_skipped
        { skip := some false, skip_reason := some "engagement bait" } tw1).1 rfl⟩

/-! Worker pool: index-addressed write-back. -/

theorem runPool_foldl_getElem (f : Nat → Tweet) (order : List Nat) :
    ∀ (acc : List (Option Tweet)) (j : Nat),
      (order.foldl (fun acc i => acc.set i (some (f i))) acc)[j]? =
        if j ∈ order ∧ j < acc.length then some (some (f j)) else acc[j]? := by
  induction order with
  | nil => intro acc j; simp
  | cons i rest ih =>
    intro acc j
    rw [List.foldl_cons, ih]
    simp only [List.length_set, List.mem_cons]
    by_cases hlen : j < acc.length
    · by_cases hj : j ∈ rest
      · simp [hj, hlen]
      · by_cases hij : j = i
        · subst hij
          simp [hj, hlen, List.getElem?_set]
        · have hij' : ¬i = j := fun hc => hij hc.symm
          simp [hj, hij, hij', hlen, List.getElem?_set]
    · have h1 : (acc.set i (some (f i)))[j]? = none := by
        rw [List.getElem?_eq_none]
        simpa using Nat.le_of_not_lt hlen
      have h2 : acc[j]? = none := by
        rw [List.getElem?_eq_none]
        exact Nat.le_of_not_lt hlen
      simp [hlen, h1, h2]

theorem runPool_eq_map_range (f : Nat → Tweet) (order : List Nat) (n : Nat)
    (h : order.Perm (List.range n)) :
    runPool f order n = (List.range n).map (fun i => some (f i)) := by
  apply List.ext_getElem?
  intro j
  unfold runPool
  rw [runPool_foldl_getElem]
  have hmem : j ∈ order ↔ j < n := by
    rw [h.mem_iff, List.mem_range]
  by_cases hj : j < n
  · simp [hmem, hj, List.getElem?_replicate, List.getElem?_map, List.getElem?_range hj]
  · have hlen : (List.range n).length ≤ j := by simpa [List.length_range] using Nat.le_of_not_lt hj
    simp [hmem, hj, List.getElem?_replicate]
    rw [List.getElem?_eq_none (by simpa using hlen)]
    simp

theorem reduceOption_map_some_eq (l : List Tweet) : (l.map some).reduceOption = l := by
  rw [List.reduceOption, List.filterMap_map]
  simp [Function.comp, List.filterMap_some]

theorem map_range_eq_mapIdx (l : List Tweet) (g : Nat → Tweet → Tweet) (d : Tweet) :
    (List.range l.length).map (fun i => g i ((l[i]?).getD d)) = l.mapIdx g := by
  apply List.ext_getElem?
  intro i
  rw [List.getElem?_map, List.getElem?_mapIdx]
  by_cases hi : i < l.length
  · rw [List.getElem?_range hi]
    simp [List.getElem?_eq_getElem hi]
  · rw [List.getElem?_eq_none (by simpa [List.length_range] using Nat.le_of_not_lt hi),
      List.getElem?_eq_none (Nat.le_of_not_lt hi)]
    simp

theorem newlyClassified_eq_mapIdx (cache : Cache) (tweets : List Tweet)
    (cls : Nat → Classification) (order : List Nat)
    (h : order.Perm (List.range (needsClassification (pipelineUniq cache tweets)).length)) :
    newlyClassified cache tweets cls order =
      (needsClassification (pipelineUniq cache tweets)).mapIdx
        (fun i t => process_tweet (cls i) t) := by
  unfold newlyClassified
  rw [runPool_eq_map_range _ _ _ h]
  have hmap : (List.range (needsClassification (pipelineUniq cache tweets)).length).map
        (fun i => some (process_tweet (cls i)
          (((needsClassification (pipelineUniq cache tweets))[i]?).getD {}))) =
      ((List.range (needsClassification (pipelineUniq cache tweets)).length).map
        (fun i => process_tweet (cls i)
          (((needsClassification (pipelineUniq cache tweets))[i]?).getD {}))).map some := by
    rw [List.map_map]
    rfl
  rw [hmap, reduceOption_map_some_eq, map_range_eq_mapIdx]

/-- C8: Dispatching N items produces exactly N result slots, each populated
exactly once: whenever the completion order is a permutation of the indices
0..N-1, slot i of the results list holds exactly the result of item i,
independently of the completion order, with no gaps and no duplicate
writes. -/
theorem runPool_complete (f : Nat → Tweet) (order : List Nat) (n : Nat)
    (h : order.Perm (List.range n)) :
    runPool f order n = (List.range n).map (fun i => some (f i)) :=
  runPool_eq_map_range f order n h

theorem runPool_complete_witness :
    ([2, 0, 1] : List Nat).Perm (List.range 3) ∧
      runPool (fun i => { ts := some (i : Int) }) [2, 0, 1] 3 =
        (List.range 3).map (fun i => some ({ ts := some (i : Int) } : Tweet)) :=
  ⟨by decide, runPool_complete (fun i => { ts := some (i : Int) }) [2, 0, 1] 3 (by decide)⟩

/-! Output ordering: stable descending sort by timestamp. -/

theorem sortOutput_le_trans (a b c : Tweet)
    (hab : decide (tsKey b ≤ tsKey a) = true) (hbc : decide (tsKey c ≤ tsKey b) = true) :
    decide (tsKey c ≤ tsKey a) = true := by
  simp only [decide_eq_true_eq] at hab hbc ⊢
  omega

theorem sortOutput_le_total (a b : Tweet) :
    (decide (tsKey b ≤ tsKey a) || decide (tsKey a ≤ tsKey b)) = true := by
  simp only [Bool.or_eq_true, decide_eq_true_eq]
  omega

/-- C7: On the normal path the persisted output is the concatenation of
newly classified and already-classified items sorted by timestamp descending
(newest first); the sort permutes the list, leaves it pairwise descending in
the timestamp key, is stable (items with the same key keep their relative
order), and a missing timestamp sorts as 0. -/
theorem output_sorted_desc (cache : Cache) (tweets : List Tweet)
    (cls : Nat → Classification) (order : List Nat) (k : Int) (l : List Tweet)
    (hne : needsClassification (pipelineUniq cache tweets) ≠ []) :
    mainOutput cache tweets cls order =
      sortOutput (newlyClassified cache tweets cls order
        ++ alreadyClassified (pipelineUniq cache tweets))
    ∧ (sortOutput l).Perm l
    ∧ (sortOutput l).Pairwise (fun a b => tsKey b ≤ tsKey a)
    ∧ (sortOutput l).filter (fun t => tsKey t == k) = l.filter (fun t => tsKey t == k)
    ∧ (∀ t : Tweet, t.ts = none → tsKey t = 0) := by
  refine ⟨?_, ?_, ?_, ?_, ?_⟩
  · have hemp : (needsClassification (pipelineUniq cache tweets)).isEmpty ≠ true := by
      intro hc
      exact hne (List.isEmpty_iff.mp hc)
    rw [mainOutput, if_neg hemp]
  · exact List.mergeSort_perm l _
  · exact (List.sorted_mergeSort sortOutput_le_trans sortOutput_le_total l).imp
      (fun h => by simpa using h)
  · have hallk : ∀ x ∈ l.filter (fun t => tsKey t == k), tsKey x = k := by
      intro x hx
      have := List.of_mem_filter hx
      simpa using this
    have hpair : (l.filter (fun t => tsKey t == k)).Pairwise
        (fun a b => decide (tsKey b ≤ tsKey a) = true) := by
      apply List.pairwise_of_forall_mem_list
      intro a ha b hb
      simp [hallk a ha, hallk b hb]
    have hsub : List.Sublist (l.filter (fun t => tsKey t == k)) (sortOutput l) :=
      List.sublist_mergeSort sortOutput_le_trans sortOutput_le_total hpair
        (List.filter_sublist l)
    have hself : (l.filter (fun t => tsKey t == k)).filter (fun t => tsKey t == k) =
        l.filter (fun t => tsKey t == k) :=
      List.filter_eq_self.mpr (fun a ha => (List.mem_filter.mp ha).2)
    have hsub2 : List.Sublist (l.filter (fun t => tsKey t == k))
        ((sortOutput l).filter (fun t => tsKey t == k)) := by
      have h1 := hsub.filter (fun t => tsKey t == k)
      rwa [hself] at h1
    have hlen : ((sortOutput l).filter (fun t => tsKey t == k)).length =
        (l.filter (fun t => tsKey t == k)).length :=
      (List.Perm.filter (fun t => tsKey t == k) (List.mergeSort_perm l _)).length_eq
    exact (hsub2.eq_of_length hlen.symm).symm
  · intro t h
    simp [tsKey, h]

/-- Sample: a second unclassified tweet with a distinct key and timestamp 1. -/
def tw4 : Tweet := { handle := some "q", text := some "qq", ts := some 1 }

theorem output_sorted_desc_witness :
    needsClassification (pipelineUniq [] [tw1, tw4, tw3]) ≠ [] ∧
      (sortOutput [tw1, tw4, tw3]).map tsKey = [9, 5, 1] ∧
      mainOutput [] [tw1, tw4, tw3] (fun _ => defaultClassification) [2, 0, 1] =
        sortOutput (newlyClassified [] [tw1, tw4, tw3] (fun _ => defaultClassification)
            [2, 0, 1]
          ++ alreadyClassified (pipelineUniq [] [tw1, tw4, tw3])) :=
  ⟨by decide,
    by simp [sortOutput, List.mergeSort, List.splitInTwo, List.merge, tsKey, tw1, tw4, tw3],
    (output_sorted_desc [] [tw1, tw4, tw3] (fun _ => defaultClassification) [2, 0, 1] 0 []
      (by decide)).1⟩

/-! Output invariant: every persisted item carries the skip field. -/

/-- C9: Every item in the persisted output carries the skip field: on the
normal path every needs-classification item receives a full classification
from `process_tweet` before persisting, and on the short-circuit path every
deduplicated item already carries it, so the output never contains an
unclassified item. -/
theorem output_all_classified (cache : Cache) (tweets : List Tweet)
    (cls : Nat → Classification) (order : List Nat)
    (h : order.Perm (List.range (needsClassification (pipelineUniq cache tweets)).length)) :
    ∀ t ∈ mainOutput cache tweets cls order, t.skip.isSome := by
  intro t ht
  rw [mainOutput] at ht
  by_cases hemp : (needsClassification (pipelineUniq cache tweets)).isEmpty
  · rw [if_pos hemp] at ht
    have hnil : needsClassification (pipelineUniq cache tweets) = [] :=
      List.isEmpty_iff.mp hemp
    have h2 : ¬t.skip = none := by
      have := List.filter_eq_nil_iff.mp hnil t ht
      simpa using this
    exact Option.ne_none_iff_isSome.mp h2
  · rw [if_neg hemp] at ht
    simp only [sortOutput] at ht
    rw [List.mem_mergeSort] at ht
    rcases List.mem_append.mp ht with hnew | hold
    · rw [newlyClassified_eq_mapIdx cache tweets cls order h] at hnew
      rcases List.exists_of_mem_mapIdx hnew with ⟨i, hi, hval⟩
      rw [← hval]
      simp [process_tweet]
    · have := List.of_mem_filter hold
      simpa using this

theorem output_all_classified_witness :
    ([] : List Nat).Perm (List.range (needsClassification (pipelineUniq [] [tw2])).length) ∧
      tw2 ∈ mainOutput [] [tw2] (fun _ => defaultClassification) [] ∧
      tw2.skip.isSome :=
  ⟨by decide, by decide,
    output_all_classified [] [tw2] (fun _ => defaultClassification) [] (by decide) tw2
      (by decide)⟩

/-! JSON extraction.  The definitions below, up to `firstJsonObject`, follow
the spec's words ("the first well-formed JSON object substring") rather than
the script: they give a recursive-descent validity checker for JSON objects
(slightly permissive on numbers, e.g. leading zeros are accepted) and the
earliest well-formed object substring of a text, to be compared with the
`extractJson` behaviour actually implemented by the regex. -/

/-- JSON whitespace characters. -/
def jsonWs (c : Char) : Bool :=
  c == ' ' || c == Char.ofNat 9 || c == Char.ofNat 10 || c == Char.ofNat 13

/-- Skip leading JSON whitespace. -/
def skipWs (cs : List Char) : List Char := cs.dropWhile jsonWs

/-- Consume the rest of a JSON string literal after its opening quote,
returning the remaining input. -/
def parseStringRest : List Char → Option (List Char)
  | [] => none
  | c :: rest =>
    if c == '"' then some rest
    else if c == '\\' then
      match rest with
      | [] => none
      | _ :: r2 => parseStringRest r2
    else parseStringRest rest

/-- Consume one or more digits. -/
def parseDigits (cs : List Char) : Option (List Char) :=
  if (cs.takeWhile Char.isDigit).isEmpty then none
  else some (cs.dropWhile Char.isDigit)

/-- Consume an optional exponent part. -/
def parseExponent (cs : List Char) : Option (List Char) :=
  match cs with
  | [] => some []
  | c :: rest =>
    if c == 'e' || c == 'E' then
      match rest with
      | [] => none
      | d :: r2 => if d == '+' || d == '-' then parseDigits r2 else parseDigits rest
    else some (c :: rest)

/-- Consume an optional fraction part followed by an optional exponent. -/
def parseFraction (cs : List Char) : Option (List Char) :=
  match cs with
  | [] => some []
  | c :: rest =>
    if c == '.' then (parseDigits rest).bind parseExponent
    else parseExponent (c :: rest)

/-- Consume a JSON number. -/
def parseNumber (cs : List Char) : Option (List Char) :=
  match cs with
  | [] => none
  | c :: rest =>
    if c == '-' then (parseDigits rest).bind parseFraction
    else (parseDigits (c :: rest)).bind parseFraction

/-- Parsing mode: a value, the members of an object after its opening brace,
or the elements of an array after its opening bracket.  `first` is true
before the first member/element, where an immediate close is allowed. -/
inductive JMode where
  | value
  | members (first : Bool)
  | elems (first : Bool)

/-- Fuel-bounded recursive-descent JSON parser; returns the input remaining
after the parsed construct.  The fuel bounds the recursion depth, and one
unit is consumed per nested construct or per further member/element, so any
fuel exceeding the input length is enough. -/
def jsonP : Nat → JMode → List Char → Option (List Char)
  | 0, _, _ => none
  | fuel + 1, .value, cs =>
    match skipWs cs with
    | [] => none
    | c :: rest =>
      if c == lbrace then jsonP fuel (.members true) rest
      else if c == '[' then jsonP fuel (.elems true) rest
      else if c == '"' then parseStringRest rest
      else if "true".data.isPrefixOf (c :: rest) then some ((c :: rest).drop 4)
      else if "false".data.isPrefixOf (c :: rest) then some ((c :: rest).drop 5)
      else if "null".data.isPrefixOf (c :: rest) then some ((c :: rest).drop 4)
      else if c == '-' || c.isDigit then parseNumber (c :: rest)
      else none
  | fuel + 1, .members first, cs =>
    match skipWs cs with
    | [] => none
    | c :: rest =>
      if first && (c == rbrace) then some rest
      else if c == '"' then
        match parseStringRest rest with
        | none => none
        | some afterKey =>
          match skipWs afterKey with
          | [] => none
          | colon :: r3 =>
            if colon == ':' then
              match jsonP fuel .value r3 with
              | none => none
              | some afterVal =>
                match skipWs afterVal with
                | [] => none
                | d :: r4 =>
                  if d == ',' then jsonP fuel (.members false) r4
                  else if d == rbrace then some r4
                  else none
            else none
      else none
  | fuel + 1, .elems first, cs =>
    match skipWs cs with
    | [] => none
    | c :: rest =>
      if first && (c == ']') then some rest
      else
        match jsonP fuel .value (c :: rest) with
        | none => none
        | some afterVal =>
          match skipWs afterVal with
          | [] => none
          | d :: r2 =>
            if d == ',' then jsonP fuel (.elems false) r2
            else if d == ']' then some r2
            else none

/-- Parse a JSON object starting exactly at the head of the input, returning
the remaining input after it. -/
def parseObjectAt (cs : List Char) : Option (List Char) :=
  match cs with
  | [] => none
  | c :: rest => if c == lbrace then jsonP (cs.length + 1) (.members true) rest else none

/-- Whether a string is a single well-formed JSON object, up to surrounding
whitespace. -/
def isJsonObject (s : String) : Bool :=
  match parseObjectAt (skipWs s.data) with
  | some rest => (skipWs rest).isEmpty
  | none => false

/-- The earliest well-formed JSON object substring of the input, if any: the
object starting at the first position where an object parse succeeds. -/
def firstJsonObjAux : List Char → Option (List Char)
  | [] => none
  | c :: rest =>
    if c == lbrace then
      match parseObjectAt (c :: rest) with
      | some remaining => some ((c :: rest).take ((c :: rest).length - remaining.length))
      | none => firstJsonObjAux rest
    else firstJsonObjAux rest

/-- The first well-formed JSON object substring of a response text, following
the spec's description of the extraction. -/
def firstJsonObject (s : String) : Option String :=
  (firstJsonObjAux s.data).map String.mk

/-- C5 counterexample: the response text `ok {"a": 1} oops }` contains the
well-formed JSON object `{"a": 1}` surrounded by prose, but the substring
passed to the parser is the span from the first left brace to the last right
brace, `{"a": 1} oops }`, not the first well-formed JSON object. -/
theorem extractJson_counterexample :
    firstJsonObject "ok \x7b\"a\": 1\x7d oops \x7d" = some "\x7b\"a\": 1\x7d" ∧
      extractJson (pyStrip "ok \x7b\"a\": 1\x7d oops \x7d") = "\x7b\"a\": 1\x7d oops \x7d" ∧
      extractJson (pyStrip "ok \x7b\"a\": 1\x7d oops \x7d") ≠ "\x7b\"a\": 1\x7d" :=
  ⟨by decide, by decide, by decide⟩

theorem dropWhile_append_of_all {p : Char → Bool} (l₁ l₂ : List Char)
    (h : ∀ c ∈ l₁, p c = true) :
    (l₁ ++ l₂).dropWhile p = l₂.dropWhile p := by
  induction l₁ with
  | nil => simp
  | cons c cs ih =>
    simp only [List.cons_append, List.dropWhile_cons, h c (List.mem_cons_self c cs), if_true]
    exact ih (fun d hd => h d (List.mem_cons_of_mem c hd))

/-- C5 (amended): the extraction passes the span from the first left brace
through the last right brace of the response; consequently, when the
response is a single well-formed JSON object surrounded by brace-free prose,
the parser receives exactly that object — but not, in general, the first
well-formed JSON object of the text. -/
theorem extractJson_spans_braces (pre obj post : List Char)
    (hpre : ∀ c ∈ pre, c ≠ lbrace ∧ c ≠ rbrace)
    (hpost : ∀ c ∈ post, c ≠ lbrace ∧ c ≠ rbrace)
    (hobj : isJsonObject (String.mk obj) = true)
    (hhead : obj.head? = some lbrace)
    (hlast : obj.getLast? = some rbrace) :
    extractJson (String.mk (pre ++ obj ++ post)) = String.mk obj := by
  obtain ⟨o, rfl⟩ : ∃ o, obj = lbrace :: o := by
    cases obj with
    | nil => simp at hhead
    | cons a o =>
      simp only [List.head?_cons, Option.some.injEq] at hhead
      exact ⟨o, by rw [hhead]⟩
  have h1 : (pre ++ (lbrace :: o) ++ post).dropWhile (fun c => c != lbrace) =
      (lbrace :: o) ++ post := by
    rw [List.append_assoc, dropWhile_append_of_all pre _
      (fun c hc => by simp [bne_iff_ne]; exact (hpre c hc).1)]
    simp [List.dropWhile_cons]
  have h2 : ((lbrace :: o) ++ post).reverse.dropWhile (fun c => c != rbrace) =
      (lbrace :: o).reverse := by
    rw [List.reverse_append, dropWhile_append_of_all post.reverse _
      (fun c hc => by simp [bne_iff_ne]; exact (hpost c (List.mem_reverse.mp hc)).2)]
    obtain ⟨rr, hrr⟩ : ∃ rr, (lbrace :: o).reverse = rbrace :: rr := by
      have hh : (lbrace :: o).reverse.head? = some rbrace := by
        rw [List.head?_reverse]
        exact hlast
      cases hrev : (lbrace :: o).reverse with
      | nil => rw [hrev] at hh; simp at hh
      | cons a rr =>
        rw [hrev] at hh
        simp only [List.head?_cons, Option.some.injEq] at hh
        exact ⟨rr, by rw [hh]⟩
    rw [hrr]
    simp [List.dropWhile_cons]
  have hlen : 2 ≤ (lbrace :: o).length := by
    cases o with
    | nil =>
      simp only [List.getLast?_singleton, Option.some.injEq] at hlast
      exact absurd hlast (by decide)
    | cons b bs => simp
  have e1 : (String.mk (pre ++ (lbrace :: o) ++ post)).data =
      pre ++ (lbrace :: o) ++ post := rfl
  simp only [extractJson, e1, h1, h2, List.reverse_reverse, hlen, if_true]

theorem extractJson_spans_braces_witness :
    extractJson (String.mk ("ok ".data ++ "\x7b\"a\": 1\x7d".data ++ " done".data)) =
      String.mk "\x7b\"a\": 1\x7d".data :=
  extractJson_spans_braces "ok ".data "\x7b\"a\": 1\x7d".data " done".data
    (by decide) (by decide) (by decide) (by decide) (by decide)
